import Mathlib

/-!
# Verification of the uncertainties-cpp correlation-tracking scalar

A shallow embedding of the repository's core: the `udouble` value type
(include/uncertainties/udouble.hpp, src/udouble.cpp), its global
`VariableRegistry` (include/uncertainties/variable_registry.hpp) and the
chain-rule elementary functions (src/umath.cpp).

Modelling conventions:
* C++ `double` values are idealised as real numbers `ℝ`; `std::sqrt`,
  `std::sin`, … become the corresponding Mathlib functions on `ℝ`.
* `uint64_t` variable identifiers become `Nat` (the registry allocates them
  monotonically from 1; no claim depends on 64-bit wrap-around).
* `std::unordered_map<uint64_t,double>` becomes an association list
  `List (Nat × ℝ)`; every C++ map has distinct keys and the embedded
  operations preserve key-distinctness, so entry counts and lookups agree.
* The process-global registry singleton becomes an explicit
  `VariableRegistry` value threaded through every function that the C++
  source lets interact with it; a C++ function whose body never names the
  registry is embedded as a function that returns its registry argument
  unchanged.
* C++ `throw` becomes `Except UError`; a throwing path yields `.error e`
  and (for registry-threading functions) the unchanged registry.
-/

namespace Uncertainties

open scoped Classical

noncomputable section

/-- Errors thrown by the library: `std::invalid_argument` and
`std::runtime_error`, each carrying the message string from the source. -/
inductive UError where
  | invalidArgument (msg : String)
  | runtimeError (msg : String)
  deriving DecidableEq

/-- Threshold for pruning near-zero derivatives (`PRUNE_THRESHOLD = 1e-300`
in both src/udouble.cpp and src/umath.cpp). -/
def PRUNE_THRESHOLD : ℝ := 1 / 10 ^ 300

/-- Association-list lookup: `m.find(k)` on a C++ map with distinct keys. -/
def alist_find? : List (Nat × ℝ) → Nat → Option ℝ
  | [], _ => none
  | (k', v') :: rest, k => if k' = k then some v' else alist_find? rest k

/-- Association-list write `m[k] = v`: overwrite the entry for `k` when
present, otherwise add a new entry. -/
def alist_set : List (Nat × ℝ) → Nat → ℝ → List (Nat × ℝ)
  | [], k, v => [(k, v)]
  | (k', v') :: rest, k, v =>
      if k' = k then (k', v) :: rest else (k', v') :: alist_set rest k v

/-- Association-list accumulation `m[k] += v`: `operator[]` default-inserts
`0.0` when `k` is absent, so an absent key receives the value `v` itself. -/
def alist_addto : List (Nat × ℝ) → Nat → ℝ → List (Nat × ℝ)
  | [], k, v => [(k, v)]
  | (k', v') :: rest, k, v =>
      if k' = k then (k', v' + v) :: rest else (k', v') :: alist_addto rest k v

/-- Association-list subtraction `m[k] -= v` (absent key receives `-v`). -/
def alist_subfrom : List (Nat × ℝ) → Nat → ℝ → List (Nat × ℝ)
  | [], k, v => [(k, -v)]
  | (k', v') :: rest, k, v =>
      if k' = k then (k', v' - v) :: rest else (k', v') :: alist_subfrom rest k v

/-- The global `detail::VariableRegistry`: the map `stddevs_` from variable
ID to original standard deviation, and the counter `next_id_` (initially 1,
ID 0 reserved). -/
structure VariableRegistry where
  stddevs : List (Nat × ℝ)
  next_id : Nat

/-- The registry state at process start (`next_id_{1}`, empty map). -/
def VariableRegistry.init : VariableRegistry := ⟨[], 1⟩

/-- `VariableRegistry::register_variable`: allocate `next_id_`, store the
deviation under it, return the new ID and the grown registry. -/
def register_variable (reg : VariableRegistry) (stddev : ℝ) :
    Nat × VariableRegistry :=
  (reg.next_id, ⟨alist_set reg.stddevs reg.next_id stddev, reg.next_id + 1⟩)

/-- `VariableRegistry::get_stddev`: look up an ID; the C++ throws
`std::runtime_error` on an unknown ID, embedded as `none`. -/
def get_stddev (reg : VariableRegistry) (id : Nat) : Option ℝ :=
  alist_find? reg.stddevs id

/-- `VariableRegistry::size` (the number of stored entries). -/
def VariableRegistry.size (reg : VariableRegistry) : Nat :=
  reg.stddevs.length

/-- The derivative map of a `udouble`: variable ID to partial derivative. -/
abbrev DerivativeMap := List (Nat × ℝ)

/-- The `udouble` value type: a nominal value and the sparse map of partial
derivatives with respect to atomic variables. -/
structure udouble where
  nominal : ℝ
  derivatives : DerivativeMap

/-- `prune_derivatives` (src/udouble.cpp): erase every entry whose absolute
value is below `PRUNE_THRESHOLD`, keep the rest. -/
def prune_derivatives : DerivativeMap → DerivativeMap
  | [] => []
  | (k, v) :: rest =>
      if |v| < PRUNE_THRESHOLD then prune_derivatives rest
      else (k, v) :: prune_derivatives rest

/-- Merge step shared by the binary operators: iterate over one operand's
map performing `new_derivs[id] += coef * deriv`. -/
def dmap_accum (start : DerivativeMap) (m : DerivativeMap) (coef : ℝ) :
    DerivativeMap :=
  m.foldl (fun acc p => alist_addto acc p.1 (coef * p.2)) start

/-- `operator+` (src/udouble.cpp): copy the left map, `+=` each right entry,
prune. -/
def udouble.add (lhs rhs : udouble) : udouble :=
  let new_derivs :=
    rhs.derivatives.foldl (fun acc p => alist_addto acc p.1 p.2)
      lhs.derivatives
  ⟨lhs.nominal + rhs.nominal, prune_derivatives new_derivs⟩

/-- `operator-` (src/udouble.cpp): copy the left map, `-=` each right entry,
prune. -/
def udouble.sub (lhs rhs : udouble) : udouble :=
  let new_derivs :=
    rhs.derivatives.foldl (fun acc p => alist_subfrom acc p.1 p.2)
      lhs.derivatives
  ⟨lhs.nominal - rhs.nominal, prune_derivatives new_derivs⟩

/-- `operator*` on two `udouble`s (src/udouble.cpp): fresh map accumulating
`b.nom * da` then `a.nom * db`, prune. -/
def udouble.mul (lhs rhs : udouble) : udouble :=
  let new_derivs :=
    dmap_accum (dmap_accum [] lhs.derivatives rhs.nominal)
      rhs.derivatives lhs.nominal
  ⟨lhs.nominal * rhs.nominal, prune_derivatives new_derivs⟩

/-- `operator*(udouble, double)` (src/udouble.cpp): scale every derivative
by the constant, prune. -/
def udouble.mul_const (lhs : udouble) (rhs : ℝ) : udouble :=
  ⟨lhs.nominal * rhs,
   prune_derivatives (lhs.derivatives.map (fun p => (p.1, rhs * p.2)))⟩

/-- `operator*(double, udouble)` (src/udouble.cpp): defined as `rhs * lhs`. -/
def const_mul (lhs : ℝ) (rhs : udouble) : udouble :=
  rhs.mul_const lhs

/-- `operator/` on two `udouble`s (src/udouble.cpp): throws
`std::runtime_error` when the divisor's nominal value is exactly zero,
before the quotient or any derivative is computed. -/
def udouble.div (lhs rhs : udouble) : Except UError udouble :=
  if rhs.nominal = 0 then
    .error (.runtimeError "Division by zero in udouble.")
  else
    let inv_b := 1 / rhs.nominal
    let a_over_b_sq := lhs.nominal / (rhs.nominal * rhs.nominal)
    let new_derivs :=
      rhs.derivatives.foldl (fun acc p => alist_subfrom acc p.1 (a_over_b_sq * p.2))
        (dmap_accum [] lhs.derivatives inv_b)
    .ok ⟨lhs.nominal / rhs.nominal, prune_derivatives new_derivs⟩

/-- `operator/(udouble, double)` (src/udouble.cpp): zero-divisor check, then
scale every derivative by `1/rhs`, prune. -/
def udouble.div_const (lhs : udouble) (rhs : ℝ) : Except UError udouble :=
  if rhs = 0 then
    .error (.runtimeError "Division by zero in udouble.")
  else
    .ok ⟨lhs.nominal / rhs,
      prune_derivatives (lhs.derivatives.map (fun p => (p.1, (1 / rhs) * p.2)))⟩

/-- `operator/(double, udouble)` (src/udouble.cpp): zero-divisor check, then
every derivative becomes `(-lhs/rhs.nom²) * deriv`, prune. -/
def const_div (lhs : ℝ) (rhs : udouble) : Except UError udouble :=
  if rhs.nominal = 0 then
    .error (.runtimeError "Division by zero in udouble.")
  else
    let coef := -lhs / (rhs.nominal * rhs.nominal)
    .ok ⟨lhs / rhs.nominal,
      prune_derivatives (rhs.derivatives.map (fun p => (p.1, coef * p.2)))⟩

/-- `pow(udouble, udouble)` (src/udouble.cpp): requires a positive base,
accumulates `v*(b/a)*da` and `v*ln(a)*db`, prunes. -/
def udouble.upow (base exponent : udouble) : Except UError udouble :=
  if base.nominal ≤ 0 then
    .error (.runtimeError "Base of exponentiation (base) must be positive.")
  else
    let v := base.nominal ^ exponent.nominal
    let coef_base := v * exponent.nominal / base.nominal
    let coef_exp := v * Real.log base.nominal
    let new_derivs :=
      dmap_accum (dmap_accum [] base.derivatives coef_base)
        exponent.derivatives coef_exp
    .ok ⟨v, prune_derivatives new_derivs⟩

/-- Unary `operator-` (udouble.hpp): negate the nominal value and every
derivative; no pruning. -/
def udouble.neg (x : udouble) : udouble :=
  ⟨-x.nominal, x.derivatives.map (fun p => (p.1, -p.2))⟩

/-- Unary `operator+` (udouble.hpp): returns a copy. -/
def udouble.uplus (x : udouble) : udouble := x

/-- Variance accumulation loop of `udouble::stddev` (udouble.hpp): for each
entry look the original deviation up in the registry and add
`deriv * deriv * stddev * stddev`; an unknown ID throws (`none`). -/
def variance_sum : DerivativeMap → VariableRegistry → Option ℝ
  | [], _ => some 0
  | (id, deriv) :: rest, reg =>
      match get_stddev reg id, variance_sum rest reg with
      | some s, some acc => some (deriv * deriv * s * s + acc)
      | _, _ => none

/-- `udouble::stddev` (udouble.hpp): `0.0` for an empty derivative map,
otherwise the square root of the variance sum, recomputed from the registry
passed at each call (the class caches nothing). -/
def udouble.stddev? (x : udouble) (reg : VariableRegistry) : Option ℝ :=
  match x.derivatives with
  | [] => some 0
  | _ => (variance_sum x.derivatives reg).map Real.sqrt

/-- `udouble::is_atomic` (udouble.hpp): exactly one derivative entry and its
value is exactly `1.0`. -/
def udouble.is_atomic (x : udouble) : Prop :=
  match x.derivatives with
  | [(_, d)] => d = 1
  | _ => False

/-- The two-argument constructor `udouble(double nominal, double stddev)`
(udouble.hpp): negative deviation throws `std::invalid_argument` before any
registry interaction; positive deviation registers one atomic variable with
derivative `1.0`; zero deviation yields a constant with an empty map. -/
def mk_udouble (nominal stddev : ℝ) (reg : VariableRegistry) :
    Except UError udouble × VariableRegistry :=
  if stddev < 0 then
    (.error (.invalidArgument "Standard deviation cannot be negative."), reg)
  else if 0 < stddev then
    let r := register_variable reg stddev
    (.ok ⟨nominal, [(r.1, 1)]⟩, r.2)
  else
    (.ok ⟨nominal, []⟩, reg)

/-- `udouble::independent_copy` (udouble.hpp): construct
`udouble(nominal_, stddev())`; a failing `stddev()` lookup propagates the
registry's `std::runtime_error`. -/
def independent_copy (x : udouble) (reg : VariableRegistry) :
    Except UError udouble × VariableRegistry :=
  match x.stddev? reg with
  | none => (.error (.runtimeError "Unknown variable ID in registry"), reg)
  | some s => mk_udouble x.nominal s reg

/-- `apply_chain_rule` (src/umath.cpp): multiply every derivative by the
scalar `f'(nominal)`, keeping an entry only when its new absolute value is
at least `PRUNE_THRESHOLD`. -/
def apply_chain_rule : DerivativeMap → ℝ → DerivativeMap
  | [], _ => []
  | (id, deriv) :: rest, derivative =>
      if PRUNE_THRESHOLD ≤ |derivative * deriv| then
        (id, derivative * deriv) :: apply_chain_rule rest derivative
      else
        apply_chain_rule rest derivative

/-- `sin` (src/umath.cpp). -/
def usin (x : udouble) : udouble :=
  ⟨Real.sin x.nominal, apply_chain_rule x.derivatives (Real.cos x.nominal)⟩

/-- `cos` (src/umath.cpp). -/
def ucos (x : udouble) : udouble :=
  ⟨Real.cos x.nominal, apply_chain_rule x.derivatives (-Real.sin x.nominal)⟩

/-- `tan` (src/umath.cpp): throws when `cos(x) == 0`. -/
def utan (x : udouble) : Except UError udouble :=
  if Real.cos x.nominal = 0 then
    .error (.invalidArgument "Tangent undefined at this value (cos(x) = 0).")
  else
    .ok ⟨Real.tan x.nominal,
      apply_chain_rule x.derivatives
        (1 / (Real.cos x.nominal * Real.cos x.nominal))⟩

/-- `asin` (src/umath.cpp): domain `[-1, 1]`, derivative undefined at `±1`. -/
def uasin (x : udouble) : Except UError udouble :=
  if x.nominal < -1 ∨ 1 < x.nominal then
    .error (.invalidArgument "asin input must be in range [-1, 1].")
  else if Real.sqrt (1 - x.nominal * x.nominal) = 0 then
    .error (.invalidArgument "asin derivative undefined at x = ±1.")
  else
    .ok ⟨Real.arcsin x.nominal,
      apply_chain_rule x.derivatives (1 / Real.sqrt (1 - x.nominal * x.nominal))⟩

/-- `acos` (src/umath.cpp): domain `[-1, 1]`, derivative undefined at `±1`. -/
def uacos (x : udouble) : Except UError udouble :=
  if x.nominal < -1 ∨ 1 < x.nominal then
    .error (.invalidArgument "acos input must be in range [-1, 1].")
  else if Real.sqrt (1 - x.nominal * x.nominal) = 0 then
    .error (.invalidArgument "acos derivative undefined at x = ±1.")
  else
    .ok ⟨Real.arccos x.nominal,
      apply_chain_rule x.derivatives (-1 / Real.sqrt (1 - x.nominal * x.nominal))⟩

/-- `atan` (src/umath.cpp). -/
def uatan (x : udouble) : udouble :=
  ⟨Real.arctan x.nominal,
   apply_chain_rule x.derivatives (1 / (1 + x.nominal * x.nominal))⟩

/-- `std::atan2(y, x)` idealised: the argument of the complex number
`x + y·i`. -/
def atan2R (y x : ℝ) : ℝ := Complex.arg ⟨x, y⟩

/-- `atan2` (src/umath.cpp): throws at the origin; accumulates
`(x/(x²+y²))·dy` and `(-y/(x²+y²))·dx`, then prunes. -/
def uatan2 (y x : udouble) : Except UError udouble :=
  let xv := x.nominal
  let yv := y.nominal
  if xv * xv + yv * yv = 0 then
    .error (.invalidArgument "atan2 undefined at origin (0, 0).")
  else
    let denom := xv * xv + yv * yv
    let new_derivs :=
      dmap_accum (dmap_accum [] y.derivatives (xv / denom))
        x.derivatives (-yv / denom)
    .ok ⟨atan2R yv xv, prune_derivatives new_derivs⟩

/-- `sinh` (src/umath.cpp). -/
def usinh (x : udouble) : udouble :=
  ⟨Real.sinh x.nominal, apply_chain_rule x.derivatives (Real.cosh x.nominal)⟩

/-- `cosh` (src/umath.cpp). -/
def ucosh (x : udouble) : udouble :=
  ⟨Real.cosh x.nominal, apply_chain_rule x.derivatives (Real.sinh x.nominal)⟩

/-- `tanh` (src/umath.cpp). -/
def utanh (x : udouble) : udouble :=
  ⟨Real.tanh x.nominal,
   apply_chain_rule x.derivatives
     (1 / (Real.cosh x.nominal * Real.cosh x.nominal))⟩

/-- `asinh` (src/umath.cpp). -/
def uasinh (x : udouble) : udouble :=
  ⟨Real.arsinh x.nominal,
   apply_chain_rule x.derivatives (1 / Real.sqrt (1 + x.nominal * x.nominal))⟩

/-- `std::acosh` idealised by its logarithmic closed form. -/
def arcoshR (x : ℝ) : ℝ := Real.log (x + Real.sqrt (x * x - 1))

/-- `acosh` (src/umath.cpp): domain `x ≥ 1`, derivative undefined at `1`. -/
def uacosh (x : udouble) : Except UError udouble :=
  if x.nominal < 1 then
    .error (.invalidArgument "acosh input must be >= 1.")
  else if Real.sqrt (x.nominal * x.nominal - 1) = 0 then
    .error (.invalidArgument "acosh derivative undefined at x = 1.")
  else
    .ok ⟨arcoshR x.nominal,
      apply_chain_rule x.derivatives (1 / Real.sqrt (x.nominal * x.nominal - 1))⟩

/-- `std::atanh` idealised by its logarithmic closed form. -/
def artanhR (x : ℝ) : ℝ := Real.log ((1 + x) / (1 - x)) / 2

/-- `atanh` (src/umath.cpp): domain `(-1, 1)`. -/
def uatanh (x : udouble) : Except UError udouble :=
  if x.nominal ≤ -1 ∨ 1 ≤ x.nominal then
    .error (.invalidArgument "atanh input must be in range (-1, 1).")
  else
    .ok ⟨artanhR x.nominal,
      apply_chain_rule x.derivatives (1 / (1 - x.nominal * x.nominal))⟩

/-- `exp` (src/umath.cpp). -/
def uexp (x : udouble) : udouble :=
  ⟨Real.exp x.nominal, apply_chain_rule x.derivatives (Real.exp x.nominal)⟩

/-- `log` (src/umath.cpp): domain `x > 0`. -/
def ulog (x : udouble) : Except UError udouble :=
  if x.nominal ≤ 0 then
    .error (.invalidArgument "Logarithm input must be greater than zero.")
  else
    .ok ⟨Real.log x.nominal, apply_chain_rule x.derivatives (1 / x.nominal)⟩

/-- `log10` (src/umath.cpp): domain `x > 0`. -/
def ulog10 (x : udouble) : Except UError udouble :=
  if x.nominal ≤ 0 then
    .error (.invalidArgument "log10 input must be greater than zero.")
  else
    .ok ⟨Real.logb 10 x.nominal,
      apply_chain_rule x.derivatives (1 / (x.nominal * Real.log 10))⟩

/-- `sqrt` (src/umath.cpp): domain `x > 0`. -/
def usqrt (x : udouble) : Except UError udouble :=
  if x.nominal ≤ 0 then
    .error (.invalidArgument "sqrt input must be greater than zero.")
  else
    .ok ⟨Real.sqrt x.nominal,
      apply_chain_rule x.derivatives (1 / (2 * Real.sqrt x.nominal))⟩

/-- `abs` (src/umath.cpp): derivative `sign(x)`, `0` exactly at `x = 0`. -/
def uabs (x : udouble) : udouble :=
  ⟨|x.nominal|,
   apply_chain_rule x.derivatives
     (if 0 < x.nominal then 1 else if x.nominal < 0 then -1 else 0)⟩

/-- `hypot` (src/umath.cpp): when the nominal result is zero it merges the
two operand maps directly and returns them WITHOUT pruning (the source
comments call this a deliberate fallback preserving quadrature combination
at the origin); otherwise it accumulates `(x/f)·dx` and `(y/f)·dy` and
prunes. -/
def uhypot (x y : udouble) : udouble :=
  let xv := x.nominal
  let yv := y.nominal
  let new_nominal := Real.sqrt (xv * xv + yv * yv)
  if new_nominal = 0 then
    let m :=
      y.derivatives.foldl (fun acc p => alist_addto acc p.1 p.2)
        (x.derivatives.foldl (fun acc p => alist_addto acc p.1 p.2) [])
    ⟨0, m⟩
  else
    let new_derivs :=
      dmap_accum (dmap_accum [] x.derivatives (xv / new_nominal))
        y.derivatives (yv / new_nominal)
    ⟨new_nominal, prune_derivatives new_derivs⟩

/-- One application of an arithmetic operator or elementary function of the
public interface, with its operand values. -/
inductive UOp where
  | add (a b : udouble)
  | sub (a b : udouble)
  | mul (a b : udouble)
  | mulConst (a : udouble) (c : ℝ)
  | constMul (c : ℝ) (a : udouble)
  | div (a b : udouble)
  | divConst (a : udouble) (c : ℝ)
  | constDiv (c : ℝ) (a : udouble)
  | upow (a b : udouble)
  | uplus (a : udouble)
  | neg (a : udouble)
  | sin (a : udouble)
  | cos (a : udouble)
  | tan (a : udouble)
  | asin (a : udouble)
  | acos (a : udouble)
  | atan (a : udouble)
  | atan2 (y x : udouble)
  | sinh (a : udouble)
  | cosh (a : udouble)
  | tanh (a : udouble)
  | asinh (a : udouble)
  | acosh (a : udouble)
  | atanh (a : udouble)
  | exp (a : udouble)
  | log (a : udouble)
  | log10 (a : udouble)
  | sqrt (a : udouble)
  | abs (a : udouble)
  | hypot (a b : udouble)

/-- Run one operator/function application against the process registry.
Each C++ operator and math-function body (src/udouble.cpp, src/umath.cpp)
never names `VariableRegistry`, so its embedding returns the registry it was
given. -/
def applyUOp : UOp → VariableRegistry → Except UError udouble × VariableRegistry
  | .add a b, reg => (.ok (a.add b), reg)
  | .sub a b, reg => (.ok (a.sub b), reg)
  | .mul a b, reg => (.ok (a.mul b), reg)
  | .mulConst a c, reg => (.ok (a.mul_const c), reg)
  | .constMul c a, reg => (.ok (const_mul c a), reg)
  | .div a b, reg => (a.div b, reg)
  | .divConst a c, reg => (a.div_const c, reg)
  | .constDiv c a, reg => (const_div c a, reg)
  | .upow a b, reg => (a.upow b, reg)
  | .uplus a, reg => (.ok a.uplus, reg)
  | .neg a, reg => (.ok a.neg, reg)
  | .sin a, reg => (.ok (usin a), reg)
  | .cos a, reg => (.ok (ucos a), reg)
  | .tan a, reg => (utan a, reg)
  | .asin a, reg => (uasin a, reg)
  | .acos a, reg => (uacos a, reg)
  | .atan a, reg => (.ok (uatan a), reg)
  | .atan2 y x, reg => (uatan2 y x, reg)
  | .sinh a, reg => (.ok (usinh a), reg)
  | .cosh a, reg => (.ok (ucosh a), reg)
  | .tanh a, reg => (.ok (utanh a), reg)
  | .asinh a, reg => (.ok (uasinh a), reg)
  | .acosh a, reg => (uacosh a, reg)
  | .atanh a, reg => (uatanh a, reg)
  | .exp a, reg => (.ok (uexp a), reg)
  | .log a, reg => (ulog a, reg)
  | .log10 a, reg => (ulog10 a, reg)
  | .sqrt a, reg => (usqrt a, reg)
  | .abs a, reg => (.ok (uabs a), reg)
  | .hypot a b, reg => (.ok (uhypot a b), reg)

end

/-- Classification of `double` values, abstracting `std::isfinite` and
`std::isnan` (the real-number idealisation has no NaN or infinity of its
own, so the classifiers are taken as parameters). -/
structure DoubleClass where
  isfinite : ℝ → Bool
  isnan : ℝ → Bool

noncomputable section

/-- `isfinite(const udouble&)` (eigen_support.hpp):
`std::isfinite(nominal) && std::isfinite(stddev())`; `stddev()` can throw,
hence the `Option`. -/
def u_isfinite (fp : DoubleClass) (x : udouble) (reg : VariableRegistry) :
    Option Bool :=
  (x.stddev? reg).map fun s => fp.isfinite x.nominal && fp.isfinite s

/-- `isnan(const udouble&)` (eigen_support.hpp):
`std::isnan(nominal) || std::isnan(stddev())`. -/
def u_isnan (fp : DoubleClass) (x : udouble) (reg : VariableRegistry) :
    Option Bool :=
  (x.stddev? reg).map fun s => fp.isnan x.nominal || fp.isnan s

end

/-- Every entry stored in the scalar's derivative map has absolute value at
least the pruning threshold. -/
def entries_pruned (x : udouble) : Prop :=
  ∀ p ∈ x.derivatives, PRUNE_THRESHOLD ≤ |p.2|

/-! ## Basic lemmas about the embedded containers -/

theorem PRUNE_THRESHOLD_pos : 0 < PRUNE_THRESHOLD := by
  norm_num [PRUNE_THRESHOLD]

theorem alist_find?_set_self (m : List (Nat × ℝ)) (k : Nat) (v : ℝ) :
    alist_find? (alist_set m k v) k = some v := by
  induction m with
  | nil => simp [alist_set, alist_find?]
  | cons p rest ih =>
      by_cases h : p.1 = k
      · simp [alist_set, alist_find?, h]
      · simpa [alist_set, alist_find?, h] using ih

theorem alist_find?_set_ne (m : List (Nat × ℝ)) (k i : Nat) (v : ℝ)
    (h : i ≠ k) :
    alist_find? (alist_set m k v) i = alist_find? m i := by
  have hki : k ≠ i := fun hh => h hh.symm
  induction m with
  | nil => simp [alist_set, alist_find?, hki]
  | cons p rest ih =>
      by_cases hp : p.1 = k
      · have hpi : p.1 ≠ i := by rw [hp]; exact hki
        simp [alist_set, alist_find?, hp, hpi, hki]
      · by_cases hi : p.1 = i <;>
          simp [alist_set, alist_find?, hp, hi, h, hki, ih]

theorem alist_find?_key_mem (m : List (Nat × ℝ)) (k : Nat) (v : ℝ)
    (h : alist_find? m k = some v) : k ∈ m.map Prod.fst := by
  induction m with
  | nil => simp [alist_find?] at h
  | cons p rest ih =>
      by_cases hp : p.1 = k
      · simp [hp.symm]
      · simp [alist_find?, hp] at h
        simpa using Or.inr (ih h)

theorem alist_find?_none_of_big (m : List (Nat × ℝ)) (n : Nat)
    (h : ∀ p ∈ m, p.1 < n) : alist_find? m n = none := by
  induction m with
  | nil => rfl
  | cons p rest ih =>
      have hp : p.1 ≠ n := Nat.ne_of_lt (h p (by simp))
      simp only [alist_find?, hp, if_false]
      exact ih fun q hq => h q (by simp [hq])

theorem alist_set_length_fresh (m : List (Nat × ℝ)) (k : Nat) (v : ℝ)
    (h : alist_find? m k = none) :
    (alist_set m k v).length = m.length + 1 := by
  induction m with
  | nil => simp [alist_set]
  | cons p rest ih =>
      by_cases hp : p.1 = k
      · simp [alist_find?, hp] at h
      · simp only [alist_find?, hp, if_false] at h
        simp [alist_set, hp, ih h]

theorem prune_derivatives_bound (m : DerivativeMap) :
    ∀ p ∈ prune_derivatives m, PRUNE_THRESHOLD ≤ |p.2| := by
  induction m with
  | nil => simp [prune_derivatives]
  | cons q rest ih =>
      intro p hp
      by_cases h : |q.2| < PRUNE_THRESHOLD
      · exact ih p (by simpa [prune_derivatives, h] using hp)
      · rcases (by simpa [prune_derivatives, h] using hp) with hq | hq
        · simpa [hq] using not_lt.mp h
        · exact ih p hq

theorem apply_chain_rule_bound (m : DerivativeMap) (c : ℝ) :
    ∀ p ∈ apply_chain_rule m c, PRUNE_THRESHOLD ≤ |p.2| := by
  induction m with
  | nil => simp [apply_chain_rule]
  | cons q rest ih =>
      intro p hp
      by_cases h : PRUNE_THRESHOLD ≤ |c * q.2|
      · rcases (by simpa [apply_chain_rule, h] using hp) with hq | hq
        · simpa [hq] using h
        · exact ih p hq
      · exact ih p (by simpa [apply_chain_rule, h] using hp)

theorem variance_sum_eq (m : DerivativeMap) (reg : VariableRegistry)
    (f : Nat → ℝ) (h : ∀ p ∈ m, get_stddev reg p.1 = some (f p.1)) :
    variance_sum m reg = some ((m.map fun p => p.2 ^ 2 * f p.1 ^ 2).sum) := by
  induction m with
  | nil => simp [variance_sum]
  | cons p rest ih =>
      have hp : get_stddev reg p.1 = some (f p.1) := h p (by simp)
      have hrest := ih fun q hq => h q (by simp [hq])
      simp only [variance_sum, hp, hrest, List.map_cons, List.sum_cons]
      ring_nf

/-! ## C1: self-subtraction cancels exactly -/

/-- C1: for an atomic scalar `x` constructed from `(v, σ)` with `σ ≥ 0`
(whether the zero-deviation constant or a registered atomic variable),
`x - x` has nominal value exactly `0`, an empty derivative map (the shared
derivative entry cancels and is pruned), and `stddev() == 0`. -/
theorem self_sub_cancels (v σ : ℝ) (reg : VariableRegistry)
    (x : udouble) (reg' : VariableRegistry) (hσ : 0 ≤ σ)
    (hmk : mk_udouble v σ reg = (.ok x, reg')) :
    (x.sub x).nominal = 0 ∧ (x.sub x).derivatives = [] ∧
      (x.sub x).stddev? reg' = some 0 := by
  have hτ := PRUNE_THRESHOLD_pos
  have hx : x.derivatives = [] ∨ x.derivatives = [(reg.next_id, 1)] := by
    by_cases h1 : σ < 0
    · simp [mk_udouble, h1] at hmk
    · by_cases h2 : 0 < σ
      · simp only [mk_udouble, h1, if_false, h2, if_true, register_variable,
          Prod.mk.injEq, Except.ok.injEq] at hmk
        right; rw [← hmk.1]
      · simp only [mk_udouble, h1, if_false, h2, if_true,
          Prod.mk.injEq, Except.ok.injEq] at hmk
        left; rw [← hmk.1]
  rcases hx with hx | hx <;>
    simp [udouble.sub, hx, alist_subfrom, prune_derivatives, udouble.stddev?,
      abs_of_nonneg, hτ]

/-- Witness for C1 at `v = 2`, `σ = 1`, the initial registry. -/
theorem self_sub_cancels_witness :
    (udouble.sub ⟨2, [(1, 1)]⟩ ⟨2, [(1, 1)]⟩).nominal = 0 ∧
      (udouble.sub ⟨2, [(1, 1)]⟩ ⟨2, [(1, 1)]⟩).derivatives = [] ∧
      (udouble.sub ⟨2, [(1, 1)]⟩ ⟨2, [(1, 1)]⟩).stddev? ⟨[(1, 1)], 2⟩ =
        some 0 :=
  self_sub_cancels 2 1 VariableRegistry.init ⟨2, [(1, 1)]⟩ ⟨[(1, 1)], 2⟩
    (by norm_num)
    (by norm_num [mk_udouble, register_variable, alist_set,
      VariableRegistry.init])

/-! ## C2: stddev is the quadrature sum over registry lookups -/

/-- C2: `stddev()` returns the square root of the sum, over the derivative
map's entries `(id, d)`, of `d² · σ_id²` with `σ_id` looked up in the
registry supplied at call time (the `udouble` carries no cached deviation:
`stddev?` is a function of the scalar and the registry state alone), and a
scalar with an empty derivative map has `stddev() == 0`. -/
theorem stddev_is_quadrature_sum (x : udouble) (reg : VariableRegistry)
    (f : Nat → ℝ)
    (h : ∀ p ∈ x.derivatives, get_stddev reg p.1 = some (f p.1)) :
    x.stddev? reg =
      some (Real.sqrt ((x.derivatives.map fun p => p.2 ^ 2 * f p.1 ^ 2).sum)) ∧
    (x.derivatives = [] → x.stddev? reg = some 0) := by
  constructor
  · cases hd : x.derivatives with
    | nil => simp [udouble.stddev?, hd]
    | cons q rest =>
        rw [hd] at h
        simp [udouble.stddev?, hd, variance_sum_eq (q :: rest) reg f h]
  · intro hd
    simp [udouble.stddev?, hd]

/-- Witness for C2: one entry `(1, 2)` against a registry holding `σ_1 = 3`. -/
theorem stddev_is_quadrature_sum_witness :
    udouble.stddev? ⟨1, [(1, 2)]⟩ ⟨[(1, 3)], 2⟩ =
      some (Real.sqrt
        (([((1:Nat), (2:ℝ))].map fun p => p.2 ^ 2 * (3:ℝ) ^ 2).sum)) ∧
    (udouble.derivatives ⟨1, [(1, 2)]⟩ = [] →
      udouble.stddev? ⟨1, [(1, 2)]⟩ ⟨[(1, 3)], 2⟩ = some 0) :=
  stddev_is_quadrature_sum ⟨1, [(1, 2)]⟩ ⟨[(1, 3)], 2⟩ (fun _ => 3)
    (by intro p hp
        rw [List.mem_singleton] at hp
        subst hp
        rfl)

/-! ## C4: constructor validation happens before any registry interaction -/

/-- C4: constructing from `(nominal, stddev)` with `stddev < 0` yields the
`std::invalid_argument` error and returns the registry unchanged (same
entries, same `next_id_`, hence same size); `stddev == 0` yields a constant
with an empty derivative map, again with the registry unchanged. -/
theorem mk_udouble_validation (v σ : ℝ) (reg : VariableRegistry) :
    (σ < 0 → mk_udouble v σ reg =
      (.error (.invalidArgument "Standard deviation cannot be negative."),
        reg)) ∧
    (σ = 0 → mk_udouble v σ reg = (.ok ⟨v, []⟩, reg)) := by
  constructor
  · intro h
    simp [mk_udouble, h]
  · intro h
    subst h
    simp [mk_udouble]

/-! ## C5: division-by-zero is checked first, in all three forms -/

/-- C5: each division form (`udouble ÷ udouble`, `udouble ÷ double`,
`double ÷ udouble`) returns the division-by-zero `std::runtime_error` if and
only if the divisor's nominal value is exactly zero, and returns an ordinary
result otherwise (the check precedes the quotient and derivative
computation; the operands, being passed by value here, are untouched). -/
theorem division_by_zero_check (a b : udouble) (c : ℝ) :
    (a.div b = .error (.runtimeError "Division by zero in udouble.") ↔
      b.nominal = 0) ∧
    (b.nominal ≠ 0 → ∃ u, a.div b = .ok u) ∧
    (a.div_const c = .error (.runtimeError "Division by zero in udouble.") ↔
      c = 0) ∧
    (c ≠ 0 → ∃ u, a.div_const c = .ok u) ∧
    (const_div c b = .error (.runtimeError "Division by zero in udouble.") ↔
      b.nominal = 0) ∧
    (b.nominal ≠ 0 → ∃ u, const_div c b = .ok u) := by
  refine ⟨?_, ?_, ?_, ?_, ?_, ?_⟩
  · by_cases h : b.nominal = 0 <;> simp [udouble.div, h]
  · intro h
    simp only [udouble.div, if_neg h]
    exact ⟨_, rfl⟩
  · by_cases h : c = 0 <;> simp [udouble.div_const, h]
  · intro h
    simp only [udouble.div_const, if_neg h]
    exact ⟨_, rfl⟩
  · by_cases h : b.nominal = 0 <;> simp [const_div, h]
  · intro h
    simp only [const_div, if_neg h]
    exact ⟨_, rfl⟩

/-! ## C6: atomicity is one entry with derivative exactly 1.0 -/

/-- C6: `is_atomic()` holds exactly when the derivative map has one entry
whose derivative is exactly `1.0`; a freshly constructed `x(v, σ > 0)` has
exactly one entry and is atomic, while `x + x` still has exactly one entry
(the same variable ID, with derivative `2.0`) and is not atomic. -/
theorem is_atomic_characterisation (v σ : ℝ) (reg : VariableRegistry)
    (x : udouble) (reg' : VariableRegistry) (hσ : 0 < σ)
    (hmk : mk_udouble v σ reg = (.ok x, reg')) :
    (∀ s : udouble, s.is_atomic ↔ ∃ i, s.derivatives = [(i, 1)]) ∧
    x.derivatives.length = 1 ∧ x.is_atomic ∧
    (x.add x).derivatives = [(reg.next_id, 2)] ∧
    (x.add x).derivatives.length = 1 ∧ ¬ (x.add x).is_atomic := by
  have hx : x = ⟨v, [(reg.next_id, 1)]⟩ := by
    have h1 : ¬ σ < 0 := not_lt.mpr hσ.le
    simp only [mk_udouble, h1, if_false, hσ, if_true, register_variable,
      Prod.mk.injEq, Except.ok.injEq] at hmk
    exact hmk.1.symm
  have h2 : ¬ |(1:ℝ) + 1| < PRUNE_THRESHOLD := by
    rw [abs_of_pos (by norm_num)]
    norm_num [PRUNE_THRESHOLD]
  have hadd : (x.add x).derivatives = [(reg.next_id, 2)] := by
    rw [hx]
    show prune_derivatives (alist_addto [(reg.next_id, 1)] reg.next_id 1) = _
    simp [alist_addto, prune_derivatives, h2]
    norm_num
  refine ⟨?_, ?_, ?_, hadd, ?_, ?_⟩
  · intro s
    cases hd : s.derivatives with
    | nil => simp [udouble.is_atomic, hd]
    | cons q rest =>
        cases rest with
        | nil =>
            constructor
            · intro h
              have hq2 : q.2 = 1 := by simpa [udouble.is_atomic, hd] using h
              exact ⟨q.1, by rw [← hq2]⟩
            · rintro ⟨i, hi⟩
              simp only [List.cons.injEq, and_true] at hi
              simp [udouble.is_atomic, hd, hi]
        | cons q' rest' => simp [udouble.is_atomic, hd]
  · simp [hx]
  · rw [hx]
    show (1:ℝ) = 1
    rfl
  · simp [hadd]
  · simp [udouble.is_atomic, hadd]

/-- Witness for C6 at `v = 5`, `σ = 1`, the initial registry. -/
theorem is_atomic_characterisation_witness :
    (∀ s : udouble, s.is_atomic ↔ ∃ i, s.derivatives = [(i, 1)]) ∧
    (udouble.derivatives ⟨5, [(1, 1)]⟩).length = 1 ∧
    udouble.is_atomic ⟨5, [(1, 1)]⟩ ∧
    (udouble.add ⟨5, [(1, 1)]⟩ ⟨5, [(1, 1)]⟩).derivatives = [(1, 2)] ∧
    (udouble.add ⟨5, [(1, 1)]⟩ ⟨5, [(1, 1)]⟩).derivatives.length = 1 ∧
    ¬ (udouble.add ⟨5, [(1, 1)]⟩ ⟨5, [(1, 1)]⟩).is_atomic :=
  is_atomic_characterisation 5 1 VariableRegistry.init ⟨5, [(1, 1)]⟩
    ⟨[(1, 1)], 2⟩ (by norm_num)
    (by norm_num [mk_udouble, register_variable, alist_set,
      VariableRegistry.init])

/-! ## C7: independent_copy breaks correlation -/

/-- C7: for an atomic `x` (registry entry `σ > 0` at a registered ID `i`),
`y = x.independent_copy()` registers a brand-new variable ID, shares no IDs
with `x`, and `x - y` has nominal value `0` but `stddev() == sqrt(2)·σ`:
the two contributions add in quadrature instead of cancelling. -/
theorem independent_copy_uncorrelated (v σ : ℝ) (i : Nat)
    (reg : VariableRegistry)
    (hwf : ∀ p ∈ reg.stddevs, p.1 < reg.next_id)
    (hlook : get_stddev reg i = some σ) (hσ : 0 < σ) :
    ∃ y reg',
      independent_copy ⟨v, [(i, 1)]⟩ reg = (.ok y, reg') ∧
      y.derivatives = [(reg.next_id, 1)] ∧
      (∀ j ∈ y.derivatives.map Prod.fst,
        j ∉ (udouble.derivatives ⟨v, [(i, 1)]⟩).map Prod.fst) ∧
      (udouble.sub ⟨v, [(i, 1)]⟩ y).nominal = 0 ∧
      (udouble.sub ⟨v, [(i, 1)]⟩ y).stddev? reg' =
        some (Real.sqrt 2 * σ) := by
  have hi_lt : i < reg.next_id := by
    rcases List.mem_map.mp (alist_find?_key_mem reg.stddevs i σ hlook) with
      ⟨p, hp, hpe⟩
    exact hpe ▸ hwf p hp
  have hin : i ≠ reg.next_id := Nat.ne_of_lt hi_lt
  have hσσ : (0:ℝ) ≤ σ * σ := mul_nonneg hσ.le hσ.le
  have hvs : variance_sum [(i, (1:ℝ))] reg = some (σ * σ) := by
    simp [variance_sum, hlook]
  have hstd : udouble.stddev? ⟨v, [(i, 1)]⟩ reg =
      some (Real.sqrt (σ * σ)) := by
    simp [udouble.stddev?, hvs]
  have hS_pos : 0 < Real.sqrt (σ * σ) := Real.sqrt_pos.mpr (mul_pos hσ hσ)
  set S := Real.sqrt (σ * σ) with hS_def
  have hss : S * S = σ * σ := Real.mul_self_sqrt hσσ
  refine ⟨⟨v, [(reg.next_id, 1)]⟩,
    ⟨alist_set reg.stddevs reg.next_id S, reg.next_id + 1⟩, ?_, rfl, ?_, ?_, ?_⟩
  · simp only [independent_copy, hstd]
    simp only [mk_udouble, if_neg (not_lt.mpr hS_pos.le), if_pos hS_pos,
      register_variable]
  · intro j hj
    simp only [udouble.derivatives, List.map_cons, List.map_nil,
      List.mem_singleton] at hj ⊢
    rw [hj]
    exact fun hc => hin hc.symm
  · simp [udouble.sub]
  · have hone : ¬ (1:ℝ) < PRUNE_THRESHOLD := by
      norm_num [PRUNE_THRESHOLD]
    have hsub : (udouble.sub ⟨v, [(i, 1)]⟩ ⟨v, [(reg.next_id, 1)]⟩).derivatives =
        [(i, 1), (reg.next_id, -1)] := by
      show prune_derivatives (alist_subfrom [(i, 1)] reg.next_id 1) = _
      simp [alist_subfrom, hin, prune_derivatives, hone]
    have hlook' :
        get_stddev ⟨alist_set reg.stddevs reg.next_id S, reg.next_id + 1⟩ i =
          some σ := by
      show alist_find? (alist_set reg.stddevs reg.next_id S) i = some σ
      rw [alist_find?_set_ne reg.stddevs reg.next_id i S hin]
      exact hlook
    have hlookn :
        get_stddev ⟨alist_set reg.stddevs reg.next_id S, reg.next_id + 1⟩
          reg.next_id = some S :=
      alist_find?_set_self reg.stddevs reg.next_id S
    have hvs2 : variance_sum [(i, (1:ℝ)), (reg.next_id, -1)]
        ⟨alist_set reg.stddevs reg.next_id S, reg.next_id + 1⟩ =
        some (2 * (σ * σ)) := by
      simp only [variance_sum, hlook', hlookn]
      rw [show (1:ℝ) * 1 * σ * σ + ((-1) * -1 * S * S + 0) =
        S * S + σ * σ by ring, hss]
      norm_num
      ring
    rw [show (udouble.sub ⟨v, [(i, 1)]⟩ ⟨v, [(reg.next_id, 1)]⟩).stddev?
        ⟨alist_set reg.stddevs reg.next_id S, reg.next_id + 1⟩ =
        (variance_sum (udouble.sub ⟨v, [(i, 1)]⟩ ⟨v, [(reg.next_id, 1)]⟩).derivatives
          ⟨alist_set reg.stddevs reg.next_id S, reg.next_id + 1⟩).map Real.sqrt from
        by rw [udouble.stddev?.eq_def, hsub]]
    rw [hsub, hvs2]
    have : Real.sqrt (2 * (σ * σ)) = Real.sqrt 2 * σ := by
      rw [Real.sqrt_mul (by norm_num), Real.sqrt_mul_self hσ.le]
    simp [this]

/-- Witness for C7: registry `{1 ↦ 1}` with `next_id = 2`, `x = ⟨5, {1 ↦ 1}⟩`. -/
theorem independent_copy_uncorrelated_witness :
    ∃ y reg',
      independent_copy ⟨5, [(1, 1)]⟩ ⟨[(1, 1)], 2⟩ = (.ok y, reg') ∧
      y.derivatives = [(2, 1)] ∧
      (∀ j ∈ y.derivatives.map Prod.fst,
        j ∉ (udouble.derivatives ⟨5, [(1, 1)]⟩).map Prod.fst) ∧
      (udouble.sub ⟨5, [(1, 1)]⟩ y).nominal = 0 ∧
      (udouble.sub ⟨5, [(1, 1)]⟩ y).stddev? reg' = some (Real.sqrt 2 * 1) :=
  independent_copy_uncorrelated 5 1 1 ⟨[(1, 1)], 2⟩
    (by intro p hp
        rw [List.mem_singleton] at hp
        subst hp
        norm_num)
    rfl one_pos

/-! ## C8: no operator or elementary function mutates the registry -/

/-- C8: running any arithmetic operator or elementary function of the
public interface leaves the registry identical — same value, hence the same
size and the same stored `(id, deviation)` entries; the registry is only
ever consulted by `stddev?`, never by the operations themselves. -/
theorem operations_never_mutate_registry (op : UOp) (reg : VariableRegistry) :
    (applyUOp op reg).2 = reg ∧ (applyUOp op reg).2.size = reg.size ∧
      ∀ id, get_stddev (applyUOp op reg).2 id = get_stddev reg id := by
  cases op <;> exact ⟨rfl, rfl, fun _ => rfl⟩

/-! ## C9: finiteness and NaN predicates are joint over nominal and stddev -/

/-- C9: for every scalar whose `stddev()` evaluates (to `s`), `isfinite`
holds iff both the nominal value and `s` are classified finite, and `isnan`
holds iff at least one of them is classified NaN. -/
theorem isfinite_isnan_joint (fp : DoubleClass) (x : udouble)
    (reg : VariableRegistry) (s : ℝ) (h : x.stddev? reg = some s) :
    (u_isfinite fp x reg = some true ↔
      (fp.isfinite x.nominal = true ∧ fp.isfinite s = true)) ∧
    (u_isnan fp x reg = some true ↔
      (fp.isnan x.nominal = true ∨ fp.isnan s = true)) := by
  simp [u_isfinite, u_isnan, h, Bool.and_eq_true, Bool.or_eq_true]

/-- Witness for C9: everything classified finite and non-NaN, on a constant
scalar against the initial registry. -/
theorem isfinite_isnan_joint_witness :
    (u_isfinite ⟨fun _ => true, fun _ => false⟩ ⟨0, []⟩ VariableRegistry.init =
        some true ↔
      ((⟨fun _ => true, fun _ => false⟩ : DoubleClass).isfinite
          (udouble.nominal ⟨0, []⟩) = true ∧
        (⟨fun _ => true, fun _ => false⟩ : DoubleClass).isfinite 0 = true)) ∧
    (u_isnan ⟨fun _ => true, fun _ => false⟩ ⟨0, []⟩ VariableRegistry.init =
        some true ↔
      ((⟨fun _ => true, fun _ => false⟩ : DoubleClass).isnan
          (udouble.nominal ⟨0, []⟩) = true ∨
        (⟨fun _ => true, fun _ => false⟩ : DoubleClass).isnan 0 = true)) :=
  isfinite_isnan_joint ⟨fun _ => true, fun _ => false⟩ ⟨0, []⟩
    VariableRegistry.init 0 rfl

/-! ## C10: independent_copy registers only for positive stddev -/

/-- C10: `independent_copy()` on a scalar whose `stddev()` is `0` returns a
constant with an empty derivative map and leaves the registry unchanged
(no registration at all); a new atomic variable is allocated — growing the
registry by one entry and advancing `next_id_` — exactly when the source's
`stddev()` is strictly positive. -/
theorem independent_copy_of_constant (x : udouble) (reg : VariableRegistry)
    (s : ℝ) (hwf : ∀ p ∈ reg.stddevs, p.1 < reg.next_id)
    (h : x.stddev? reg = some s) :
    (s = 0 → independent_copy x reg = (.ok ⟨x.nominal, []⟩, reg)) ∧
    (0 < s →
      (independent_copy x reg).2.size = reg.size + 1 ∧
      (independent_copy x reg).2.next_id = reg.next_id + 1) := by
  constructor
  · intro h0
    subst h0
    simp [independent_copy, h, mk_udouble]
  · intro hs
    have hfresh : alist_find? reg.stddevs reg.next_id = none :=
      alist_find?_none_of_big reg.stddevs reg.next_id hwf
    simp only [independent_copy, h, mk_udouble, if_neg (not_lt.mpr hs.le),
      if_pos hs, register_variable]
    exact ⟨alist_set_length_fresh reg.stddevs reg.next_id s hfresh, trivial⟩

/-- Witness for C10: a plain constant against the initial registry. -/
theorem independent_copy_of_constant_witness :
    ((0:ℝ) = 0 →
      independent_copy ⟨3, []⟩ VariableRegistry.init =
        (.ok ⟨udouble.nominal ⟨3, []⟩, []⟩, VariableRegistry.init)) ∧
    ((0:ℝ) < 0 →
      (independent_copy ⟨3, []⟩ VariableRegistry.init).2.size =
        VariableRegistry.init.size + 1 ∧
      (independent_copy ⟨3, []⟩ VariableRegistry.init).2.next_id =
        VariableRegistry.init.next_id + 1) :=
  independent_copy_of_constant ⟨3, []⟩ VariableRegistry.init 0
    (by intro p hp
        simp [VariableRegistry.init] at hp)
    rfl

/-! ## C3: the pruning invariant, and its hypot-at-origin exception -/

/-- C3 counterexample: `hypot` evaluated at the nominal origin takes the
no-prune fallback branch, so on operands (themselves satisfying the pruning
invariant, with entries of magnitude exactly `PRUNE_THRESHOLD`) it stores an
entry whose value is exactly `0` — below the threshold. -/
theorem hypot_origin_stores_subthreshold_entry :
    ∃ p ∈ (uhypot ⟨0, [(1, PRUNE_THRESHOLD)]⟩
        ⟨0, [(1, -PRUNE_THRESHOLD)]⟩).derivatives,
      |p.2| < PRUNE_THRESHOLD := by
  have hd : (uhypot ⟨0, [(1, PRUNE_THRESHOLD)]⟩
      ⟨0, [(1, -PRUNE_THRESHOLD)]⟩).derivatives = [(1, 0)] := by
    simp [uhypot, alist_addto]
  refine ⟨(1, 0), ?_, ?_⟩
  · rw [hd]
    simp
  · simpa using PRUNE_THRESHOLD_pos

/-- C3 amended: every derivative-map-producing operation that prunes — the
binary arithmetic operators in all their forms, `pow`, every chain-rule
elementary function, `atan2`, and `hypot` away from a zero nominal result —
stores only entries of absolute value at least `PRUNE_THRESHOLD`; unary
negation preserves that property of its operand; `hypot` with nominal
result `0` is the one exception (see the counterexample). -/
theorem operations_prune_small_derivatives :
    (∀ a b : udouble, entries_pruned (a.add b)) ∧
    (∀ a b : udouble, entries_pruned (a.sub b)) ∧
    (∀ a b : udouble, entries_pruned (a.mul b)) ∧
    (∀ (a : udouble) (c : ℝ), entries_pruned (a.mul_const c)) ∧
    (∀ (c : ℝ) (a : udouble), entries_pruned (const_mul c a)) ∧
    (∀ a b u : udouble, a.div b = .ok u → entries_pruned u) ∧
    (∀ (a : udouble) (c : ℝ) (u : udouble),
      a.div_const c = .ok u → entries_pruned u) ∧
    (∀ (c : ℝ) (a u : udouble), const_div c a = .ok u → entries_pruned u) ∧
    (∀ a b u : udouble, a.upow b = .ok u → entries_pruned u) ∧
    (∀ a : udouble, entries_pruned a → entries_pruned a.neg) ∧
    (∀ x : udouble, entries_pruned (usin x)) ∧
    (∀ x : udouble, entries_pruned (ucos x)) ∧
    (∀ x u, utan x = .ok u → entries_pruned u) ∧
    (∀ x u, uasin x = .ok u → entries_pruned u) ∧
    (∀ x u, uacos x = .ok u → entries_pruned u) ∧
    (∀ x : udouble, entries_pruned (uatan x)) ∧
    (∀ y x u, uatan2 y x = .ok u → entries_pruned u) ∧
    (∀ x : udouble, entries_pruned (usinh x)) ∧
    (∀ x : udouble, entries_pruned (ucosh x)) ∧
    (∀ x : udouble, entries_pruned (utanh x)) ∧
    (∀ x : udouble, entries_pruned (uasinh x)) ∧
    (∀ x u, uacosh x = .ok u → entries_pruned u) ∧
    (∀ x u, uatanh x = .ok u → entries_pruned u) ∧
    (∀ x : udouble, entries_pruned (uexp x)) ∧
    (∀ x u, ulog x = .ok u → entries_pruned u) ∧
    (∀ x u, ulog10 x = .ok u → entries_pruned u) ∧
    (∀ x u, usqrt x = .ok u → entries_pruned u) ∧
    (∀ x : udouble, entries_pruned (uabs x)) ∧
    (∀ x y : udouble,
      Real.sqrt (x.nominal * x.nominal + y.nominal * y.nominal) ≠ 0 →
      entries_pruned (uhypot x y)) := by
  refine ⟨fun a b p hp => prune_derivatives_bound _ p hp,
    fun a b p hp => prune_derivatives_bound _ p hp,
    fun a b p hp => prune_derivatives_bound _ p hp,
    fun a c p hp => prune_derivatives_bound _ p hp,
    fun c a p hp => prune_derivatives_bound _ p hp,
    ?_, ?_, ?_, ?_, ?_,
    fun x p hp => apply_chain_rule_bound _ _ p hp,
    fun x p hp => apply_chain_rule_bound _ _ p hp,
    ?_, ?_, ?_,
    fun x p hp => apply_chain_rule_bound _ _ p hp,
    ?_,
    fun x p hp => apply_chain_rule_bound _ _ p hp,
    fun x p hp => apply_chain_rule_bound _ _ p hp,
    fun x p hp => apply_chain_rule_bound _ _ p hp,
    fun x p hp => apply_chain_rule_bound _ _ p hp,
    ?_, ?_,
    fun x p hp => apply_chain_rule_bound _ _ p hp,
    ?_, ?_, ?_,
    fun x p hp => apply_chain_rule_bound _ _ p hp,
    ?_⟩
  · intro a b u h
    by_cases hb : b.nominal = 0
    · simp [udouble.div, hb] at h
    · simp only [udouble.div, if_neg hb, Except.ok.injEq] at h
      subst h
      exact fun p hp => prune_derivatives_bound _ p hp
  · intro a c u h
    by_cases hc : c = 0
    · simp [udouble.div_const, hc] at h
    · simp only [udouble.div_const, if_neg hc, Except.ok.injEq] at h
      subst h
      exact fun p hp => prune_derivatives_bound _ p hp
  · intro c a u h
    by_cases ha : a.nominal = 0
    · simp [const_div, ha] at h
    · simp only [const_div, if_neg ha, Except.ok.injEq] at h
      subst h
      exact fun p hp => prune_derivatives_bound _ p hp
  · intro a b u h
    by_cases ha : a.nominal ≤ 0
    · simp [udouble.upow, ha] at h
    · simp only [udouble.upow, if_neg ha, Except.ok.injEq] at h
      subst h
      exact fun p hp => prune_derivatives_bound _ p hp
  · intro a ha p hp
    simp only [udouble.neg, List.mem_map] at hp
    rcases hp with ⟨q, hq, rfl⟩
    simpa [abs_neg] using ha q hq
  · intro x u h
    by_cases hc : Real.cos x.nominal = 0
    · simp [utan, hc] at h
    · simp only [utan, if_neg hc, Except.ok.injEq] at h
      subst h
      exact fun p hp => apply_chain_rule_bound _ _ p hp
  · intro x u h
    simp only [uasin] at h
    split_ifs at h with h1 h2
    injection h with h
    subst h
    exact fun p hp => apply_chain_rule_bound _ _ p hp
  · intro x u h
    simp only [uacos] at h
    split_ifs at h with h1 h2
    injection h with h
    subst h
    exact fun p hp => apply_chain_rule_bound _ _ p hp
  · intro y x u h
    by_cases hxy : x.nominal * x.nominal + y.nominal * y.nominal = 0
    · simp [uatan2, hxy] at h
    · simp only [uatan2, if_neg hxy, Except.ok.injEq] at h
      subst h
      exact fun p hp => prune_derivatives_bound _ p hp
  · intro x u h
    simp only [uacosh] at h
    split_ifs at h with h1 h2
    injection h with h
    subst h
    exact fun p hp => apply_chain_rule_bound _ _ p hp
  · intro x u h
    by_cases hb : x.nominal ≤ -1 ∨ 1 ≤ x.nominal
    · simp [uatanh, hb] at h
    · simp only [uatanh, if_neg hb, Except.ok.injEq] at h
      subst h
      exact fun p hp => apply_chain_rule_bound _ _ p hp
  · intro x u h
    by_cases hb : x.nominal ≤ 0
    · simp [ulog, hb] at h
    · simp only [ulog, if_neg hb, Except.ok.injEq] at h
      subst h
      exact fun p hp => apply_chain_rule_bound _ _ p hp
  · intro x u h
    by_cases hb : x.nominal ≤ 0
    · simp [ulog10, hb] at h
    · simp only [ulog10, if_neg hb, Except.ok.injEq] at h
      subst h
      exact fun p hp => apply_chain_rule_bound _ _ p hp
  · intro x u h
    by_cases hb : x.nominal ≤ 0
    · simp [usqrt, hb] at h
    · simp only [usqrt, if_neg hb, Except.ok.injEq] at h
      subst h
      exact fun p hp => apply_chain_rule_bound _ _ p hp
  · intro x y h p hp
    simp only [uhypot] at hp
    rw [if_neg h] at hp
    exact prune_derivatives_bound _ p hp

end Uncertainties
